import Mathlib

/-!
Verification development for the "Golden Age of Television" analysis
notebook (`tv_analysis_clean.py`).

The notebook is a linear pandas pipeline over a table of movie/show
records:

* cleaning: `df.dropna(subset=['imdb_score', 'imdb_votes'])`, then
  `df.drop_duplicates()` (keeping the first occurrence), then
  `replace_wrong_shows` canonicalizing spelling variants of the TV-show
  category to `'SHOW'`;
* aggregation: filter to `release_year >= 1999` and `type == 'SHOW'`,
  round `imdb_score` to the nearest integer, group by rounded score
  (counting distinct titles per bucket in `score_counts`), restrict to
  scores 4..9, take the mean of `imdb_votes` per bucket, round it, and
  sort descending by average votes.

Embedding conventions.  A table is a `List Record`.  The two numeric
columns that the source stores as IEEE-754 `float64` hold exact decimal
data (IMDb scores with one fractional digit, integer vote counts), so
they are embedded exactly: `imdb_score` is the score in tenths of a
point (`some 88` stands for `8.8`; after the rounding stage the column
holds whole scores, `some 9` for `9.0`), `imdb_votes` is the integer
vote count.  Missing values (`NaN`) are `none`.  Pandas `Series.round`
(numpy `around`) rounds half to even — the IEEE-754 default rounding of
`float64` — which `roundHalfEvenDiv` implements exactly on integer
quotients.
-/

/-- One row of the table, with the canonical column names produced by the
notebook's rename stage.  `imdb_score` is in tenths of a point before the
rounding stage; `imdb_votes` is the vote count; `none` models a missing
value (`NaN`). -/
structure Record where
  name : String
  character : String
  role : String
  title : String
  type : String
  release_year : Int
  genres : String
  imdb_score : Option Int
  imdb_votes : Option Int
deriving DecidableEq, Repr

/-- The list of spelling variants of the TV-show category that the
notebook replaces (`wrong_shows_list` in the source). -/
def wrong_shows_list : List String :=
  ["shows", "SHOW", "tv show", "tv shows", "tv series", "tv"]

/-- The canonical TV-show label (`correct_show` in the source). -/
def correct_show : String := "SHOW"

/-- Cell-level behaviour of `Series.replace(wrong, correct)` on the
`type` column: a value in the `wrong` list becomes `correct`, any other
value passes through unchanged. -/
def canonCategory (wrong : List String) (correct v : String) : String :=
  if v ∈ wrong then correct else v

/-- Source `replace_wrong_shows`: replace every occurrence of a value in
`wrong` by `correct` in the `type` column, leaving all other columns and
the row order unchanged. -/
def replace_wrong_shows (wrong : List String) (correct : String)
    (df : List Record) : List Record :=
  df.map fun r => { r with type := canonCategory wrong correct r.type }

/-- Source `df.dropna(subset=['imdb_score', 'imdb_votes'])`: keep the
rows in which both columns are present. -/
def dropnaScoreVotes (df : List Record) : List Record :=
  df.filter fun r => r.imdb_score.isSome && r.imdb_votes.isSome

/-- Worker for `drop_duplicates`: drop every row equal to an
already-seen row, keeping first occurrences. -/
def dropDuplicatesFrom (seen : List Record) : List Record → List Record
  | [] => []
  | r :: rs =>
    if r ∈ seen then dropDuplicatesFrom seen rs
    else r :: dropDuplicatesFrom (r :: seen) rs

/-- Source `df.drop_duplicates()`: remove rows identical across every
column, keeping the first occurrence. -/
def drop_duplicates (df : List Record) : List Record :=
  dropDuplicatesFrom [] df

/-- The notebook's whole preprocessing stage: drop rows missing
`imdb_score` or `imdb_votes`, drop exact duplicates, canonicalize the
`type` column. -/
def clean (df : List Record) : List Record :=
  replace_wrong_shows wrong_shows_list correct_show
    (drop_duplicates (dropnaScoreVotes df))

/-- Source `golden_age_shows`: filter to `release_year >= 1999`, then to
`type == 'SHOW'`. -/
def golden_age_shows (df : List Record) : List Record :=
  (df.filter fun r => decide (1999 ≤ r.release_year)).filter
    fun r => r.type == "SHOW"

/-- Round-half-even (banker's rounding, the IEEE-754 default) of the
exact quotient `a / b`, for `b > 0`.  This is what numpy `around` — and
hence pandas `Series.round()` — computes on exactly representable
inputs. -/
def roundHalfEvenDiv (a b : Int) : Int :=
  if 2 * (a % b) < b then a / b
  else if b < 2 * (a % b) then a / b + 1
  else if (a / b) % 2 = 0 then a / b else a / b + 1

/-- Source `golden_age_shows['imdb_score'].round()`: replace each score
(in tenths) by the nearest whole score, ties to even. -/
def roundScores (df : List Record) : List Record :=
  df.map fun r =>
    { r with imdb_score := r.imdb_score.map fun t => roundHalfEvenDiv t 10 }

/-- Insert into an ascending list of group keys. -/
def insertAsc (a : Int) : List Int → List Int
  | [] => [a]
  | b :: l => if a ≤ b then a :: b :: l else b :: insertAsc a l

/-- Insertion sort, ascending; pandas `groupby` lists group keys in
ascending order. -/
def sortAsc : List Int → List Int
  | [] => []
  | a :: l => insertAsc a (sortAsc l)

/-- The distinct values of the `imdb_score` column, in ascending order:
the group keys of `groupby('imdb_score')` (missing scores are skipped,
as pandas drops `NaN` group keys). -/
def scoreKeys (df : List Record) : List Int :=
  sortAsc (df.filterMap fun r => r.imdb_score).dedup

/-- The rows of one score group. -/
def groupRows (df : List Record) (s : Int) : List Record :=
  df.filter fun r => r.imdb_score == some s

/-- Source `score_counts = golden_age_shows.groupby('imdb_score')['title'].nunique()`:
for every score bucket, the number of distinct titles in it. -/
def score_counts (df : List Record) : List (Int × Nat) :=
  (scoreKeys df).map fun s =>
    (s, ((groupRows df s).map fun r => r.title).dedup.length)

/-- Source `analysis_df`: restrict to the hard-coded score range
`(imdb_score >= 4) & (imdb_score <= 9)` (a missing score fails the
comparison, as `NaN` comparisons are false in pandas). -/
def analysis_df (df : List Record) : List Record :=
  df.filter fun r =>
    match r.imdb_score with
    | some s => decide (4 ≤ s) && decide (s ≤ 9)
    | none => false

/-- Sum of the present `imdb_votes` values of a list of rows. -/
def sumVotes (rows : List Record) : Int :=
  (rows.filterMap fun r => r.imdb_votes).sum

/-- Number of rows with a present `imdb_votes` value (pandas `mean`
skips missing values). -/
def numVotes (rows : List Record) : Nat :=
  (rows.filterMap fun r => r.imdb_votes).length

/-- Source `.mean().round()` on one bucket: the mean of the vote counts,
rounded half-to-even to the nearest integer. -/
def avgVotes (rows : List Record) : Int :=
  roundHalfEvenDiv (sumVotes rows) (numVotes rows)

/-- Source `avg_votes_by_score`: one `(score, avg_votes)` pair per score
bucket, keys ascending. -/
def avg_votes_by_score (df : List Record) : List (Int × Int) :=
  (scoreKeys df).map fun s => (s, avgVotes (groupRows df s))

/-- Insert into a list sorted descending by the second component. -/
def insertDescByVotes (p : Int × Int) : List (Int × Int) → List (Int × Int)
  | [] => [p]
  | q :: l => if q.2 ≤ p.2 then p :: q :: l else q :: insertDescByVotes p l

/-- Insertion sort, descending by the second component. -/
def sortDescByVotes : List (Int × Int) → List (Int × Int)
  | [] => []
  | p :: l => insertDescByVotes p (sortDescByVotes l)

/-- Source `results = avg_votes_by_score.sort_values('avg_votes', ascending=False)`. -/
def results (df : List Record) : List (Int × Int) :=
  sortDescByVotes (avg_votes_by_score df)

/-- The notebook's whole aggregation stage, applied to a cleaned table:
year/category filter, score rounding, hard-coded 4..9 restriction,
per-bucket vote mean, descending sort. -/
def aggregate (df : List Record) : List (Int × Int) :=
  results (analysis_df (roundScores (golden_age_shows df)))

/-- All columns of a row except `type`: the part of a row that
`replace_wrong_shows` must not touch. -/
def rowSansCategory (r : Record) :
    String × String × String × String × Int × String × Option Int × Option Int :=
  (r.name, r.character, r.role, r.title, r.release_year, r.genres,
    r.imdb_score, r.imdb_votes)

/-- A seven-row synthetic input table: three Golden-Age shows whose
scores round to 9 with votes 100000/150000/130000, one movie, one
pre-1999 show, one show written with the variant category `tv` whose
score rounds to 7, and one row with a missing score. -/
def tableC1 : List Record :=
  [⟨"n1", "c1", "actor", "T1", "SHOW", 2000, "drama", some 88, some 100000⟩,
   ⟨"n2", "c2", "actor", "T2", "SHOW", 2005, "drama", some 90, some 150000⟩,
   ⟨"n3", "c3", "actor", "T3", "SHOW", 2010, "drama", some 92, some 130000⟩,
   ⟨"n4", "c4", "actor", "M1", "MOVIE", 2005, "drama", some 90, some 999⟩,
   ⟨"n5", "c5", "actor", "T4", "SHOW", 1990, "drama", some 90, some 888⟩,
   ⟨"n6", "c6", "actor", "T5", "tv", 2005, "comedy", some 72, some 5000⟩,
   ⟨"n7", "c7", "actor", "T6", "SHOW", 2005, "drama", none, some 1⟩]

/-- A two-row table whose single score bucket (rating 5) holds only two
distinct titles — far below the reliability threshold of 30. -/
def tableC3 : List Record :=
  [⟨"n1", "c1", "actor", "A", "SHOW", 2000, "drama", some 50, some 100⟩,
   ⟨"n2", "c2", "actor", "B", "SHOW", 2001, "drama", some 50, some 110⟩]

/-- A Golden-Age show rated exactly 7.5. -/
def rowHalf75 : Record :=
  ⟨"n1", "c1", "actor", "H1", "SHOW", 2005, "drama", some 75, some 10⟩

/-- A Golden-Age show rated exactly 8.5. -/
def rowHalf85 : Record :=
  ⟨"n2", "c2", "actor", "H2", "SHOW", 2005, "drama", some 85, some 10⟩

/-- C1 counterexample: on a concrete input table whose rating-9 bucket
holds votes 100000, 150000 and 130000, the pipeline reports 126667 for
that bucket — the pair (9, 127000) claimed by the spec does not occur in
the output. -/
theorem aggregate_tableC1_not_127000 :
    ((9, 127000) : Int × Int) ∉ aggregate (clean tableC1)
    ∧ ((9, 126667) : Int × Int) ∈ aggregate (clean tableC1) := by
  decide

/-- C1 (amended): end-to-end aggregation on the synthetic table —
filtering to `release_year >= 1999` and category `SHOW`, rounding each
rating, grouping and averaging votes — matches the hand-computed
mapping: the bucket with rounded rating 9 and votes
[100000, 150000, 130000] yields 126667 (the mean 126666.67 rounded to
the nearest integer), and the rating-7 bucket yields 5000. -/
theorem aggregate_tableC1_handcomputed :
    aggregate (clean tableC1) = [(9, 126667), (7, 5000)] := by
  decide

/-- C3 counterexample: a rating bucket (rounded rating 5) with only 2
distinct titles — below the threshold of 30 — appears in the raw
per-bucket distinct-title listing but is NOT excluded from the final
averaged report: the pipeline still reports (5, 105). -/
theorem underpopulated_bucket_not_excluded :
    score_counts (roundScores (golden_age_shows (clean tableC3))) = [(5, 2)]
    ∧ (2 : Nat) < 30
    ∧ aggregate (clean tableC3) = [(5, 105)] := by
  exact ⟨by decide, by decide, by decide⟩

/-- C4: the rounding step rounds ties half-to-even (the IEEE-754 default
rounding of `float64`, numpy/pandas `round`): every rating of the form
x.5 (score `10 * k + 5` in tenths) goes to the even neighbour of k and
k + 1; in particular the pipeline assigns both 7.5 and 8.5 to bucket 8. -/
theorem roundScores_ties_to_even :
    (∀ k : Int,
      roundHalfEvenDiv (10 * k + 5) 10 = if k % 2 = 0 then k else k + 1)
    ∧ (roundScores [rowHalf75, rowHalf85]).map (fun r => r.imdb_score)
        = [some 8, some 8] := by
  constructor
  · intro k
    have h1 : (10 * k + 5) % 10 = 5 := by omega
    have h2 : (10 * k + 5) / 10 = k := by omega
    simp [roundHalfEvenDiv, h1, h2]
  · decide

/-- C9: an empty input table passed through the pipeline (with or
without the cleaning stage) produces an empty output sequence. -/
theorem aggregate_empty :
    aggregate (clean []) = [] ∧ aggregate [] = [] :=
  ⟨rfl, rfl⟩

/-- A one-row input table whose category is spelled `tv`. -/
def tableC2 : List Record :=
  [⟨"n", "c", "actor", "W", "tv", 2005, "drama", some 81, some 42⟩]

/-- Rows surviving `dropDuplicatesFrom` come from the input list. -/
theorem mem_of_mem_dropDuplicatesFrom :
    ∀ (l seen : List Record) (x : Record),
      x ∈ dropDuplicatesFrom seen l → x ∈ l := by
  intro l
  induction l with
  | nil => intro seen x h; simp [dropDuplicatesFrom] at h
  | cons r rs ih =>
    intro seen x h
    by_cases hr : r ∈ seen
    · simp only [dropDuplicatesFrom, if_pos hr] at h
      exact List.mem_cons_of_mem r (ih seen x h)
    · simp only [dropDuplicatesFrom, if_neg hr, List.mem_cons] at h
      rcases h with rfl | h
      · exact List.mem_cons_self x rs
      · exact List.mem_cons_of_mem r (ih _ x h)

/-- `dropDuplicatesFrom` yields a duplicate-free list avoiding `seen`. -/
theorem dropDuplicatesFrom_nodup_avoid :
    ∀ (l seen : List Record),
      (dropDuplicatesFrom seen l).Nodup
      ∧ ∀ x ∈ dropDuplicatesFrom seen l, x ∉ seen := by
  intro l
  induction l with
  | nil => intro seen; simp [dropDuplicatesFrom]
  | cons r rs ih =>
    intro seen
    by_cases hr : r ∈ seen
    · simpa only [dropDuplicatesFrom, if_pos hr] using ih seen
    · have h2 := ih (r :: seen)
      constructor
      · simp only [dropDuplicatesFrom, if_neg hr, List.nodup_cons]
        refine ⟨fun hmem => (h2.2 r hmem) (List.mem_cons_self r seen), h2.1⟩
      · intro x hx
        simp only [dropDuplicatesFrom, if_neg hr, List.mem_cons] at hx
        rcases hx with rfl | hx
        · exact hr
        · exact fun hxseen => (h2.2 x hx) (List.mem_cons_of_mem r hxseen)

/-- On a duplicate-free list avoiding `seen`, `dropDuplicatesFrom` is the
identity. -/
theorem dropDuplicatesFrom_eq_self :
    ∀ (l seen : List Record), l.Nodup → (∀ x ∈ l, x ∉ seen) →
      dropDuplicatesFrom seen l = l := by
  intro l
  induction l with
  | nil => intro seen _ _; rfl
  | cons r rs ih =>
    intro seen hnd havoid
    have hr : r ∉ seen := havoid r (List.mem_cons_self r rs)
    simp only [dropDuplicatesFrom, if_neg hr, List.cons.injEq, true_and]
    refine ih (r :: seen) (List.nodup_cons.mp hnd).2 ?_
    intro x hx
    simp only [List.mem_cons]
    rintro (rfl | hxs)
    · exact (List.nodup_cons.mp hnd).1 hx
    · exact havoid x (List.mem_cons_of_mem r hx) hxs

/-- C6: after duplicate removal no two rows of the table are identical
across all columns, and duplicate removal is idempotent. -/
theorem drop_duplicates_nodup_idem :
    ∀ df : List Record,
      (drop_duplicates df).Nodup
      ∧ drop_duplicates (drop_duplicates df) = drop_duplicates df := by
  intro df
  have h' := dropDuplicatesFrom_nodup_avoid df []
  refine ⟨h'.1, ?_⟩
  exact dropDuplicatesFrom_eq_self (dropDuplicatesFrom [] df) [] h'.1
    (by intro x hx; simp)

/-- C2: every row of the cleaned table has a present `imdb_score` and a
present `imdb_votes`. -/
theorem clean_scores_votes_present :
    ∀ (df : List Record) (r : Record), r ∈ clean df →
      r.imdb_score.isSome ∧ r.imdb_votes.isSome := by
  intro df r hr
  simp only [clean, replace_wrong_shows, List.mem_map] at hr
  obtain ⟨a, ha, rfl⟩ := hr
  unfold drop_duplicates at ha
  have ha2 := mem_of_mem_dropDuplicatesFrom _ _ _ ha
  unfold dropnaScoreVotes at ha2
  have ha3 := (List.mem_filter.mp ha2).2
  simp only [Bool.and_eq_true] at ha3
  exact ⟨ha3.1, ha3.2⟩

/-- Witness for C2 at a concrete table: the cleaned one-row table
contains this row, whose score and vote count are both present. -/
theorem clean_scores_votes_present_witness :
    (⟨"n", "c", "actor", "W", "SHOW", 2005, "drama", some 81, some 42⟩
        : Record).imdb_score.isSome
    ∧ (⟨"n", "c", "actor", "W", "SHOW", 2005, "drama", some 81, some 42⟩
        : Record).imdb_votes.isSome :=
  clean_scores_votes_present tableC2 _ (by decide)

/-- The cell-level canonicalization is idempotent for any variant list
and canonical label. -/
theorem canonCategory_idem (wrong : List String) (c v : String) :
    canonCategory wrong c (canonCategory wrong c v) = canonCategory wrong c v := by
  by_cases h : v ∈ wrong <;> simp [canonCategory, h]

/-- C5: category canonicalization is idempotent on whole tables, maps
every value of the known variant list to the single canonical label
`SHOW`, and leaves every other category value unchanged. -/
theorem replace_wrong_shows_idem_canonical :
    (∀ df : List Record,
      replace_wrong_shows wrong_shows_list correct_show
          (replace_wrong_shows wrong_shows_list correct_show df)
        = replace_wrong_shows wrong_shows_list correct_show df)
    ∧ (∀ v ∈ wrong_shows_list,
        canonCategory wrong_shows_list correct_show v = "SHOW")
    ∧ (∀ v, v ∉ wrong_shows_list →
        canonCategory wrong_shows_list correct_show v = v) := by
  refine ⟨?_, ?_, ?_⟩
  · intro df
    unfold replace_wrong_shows
    rw [List.map_map]
    induction df with
    | nil => rfl
    | cons r rs ih =>
      simp only [List.map_cons, List.cons.injEq] at ih ⊢
      exact ⟨by simp [canonCategory_idem], ih⟩
  · intro v hv
    simp [canonCategory, hv, correct_show]
  · intro v hv
    simp [canonCategory, hv]

/-- Witness for C5 at concrete category values: the variant `tv` maps to
`SHOW` and the non-variant `MOVIE` passes through unchanged. -/
theorem replace_wrong_shows_idem_canonical_witness :
    canonCategory wrong_shows_list correct_show "tv" = "SHOW"
    ∧ canonCategory wrong_shows_list correct_show "MOVIE" = "MOVIE" :=
  ⟨replace_wrong_shows_idem_canonical.2.1 "tv" (by decide),
   replace_wrong_shows_idem_canonical.2.2 "MOVIE" (by decide)⟩

/-- C8: the Golden-Age filter keeps exactly the rows with
`release_year >= 1999` and category `SHOW`. -/
theorem golden_age_shows_mem :
    ∀ (df : List Record) (r : Record),
      r ∈ golden_age_shows df ↔
        r ∈ df ∧ 1999 ≤ r.release_year ∧ r.type = "SHOW" := by
  intro df r
  unfold golden_age_shows
  simp only [List.mem_filter, Bool.and_eq_true, decide_eq_true_eq, beq_iff_eq]
  tauto

/-- C10: `replace_wrong_shows` changes only the `type` column — the
projection of every row to all other columns, the number of rows and
their order are unchanged. -/
theorem replace_wrong_shows_frame :
    ∀ (wrong : List String) (correct : String) (df : List Record),
      (replace_wrong_shows wrong correct df).map rowSansCategory
        = df.map rowSansCategory
      ∧ (replace_wrong_shows wrong correct df).length = df.length := by
  intro wrong correct df
  constructor
  · unfold replace_wrong_shows
    rw [List.map_map]
    induction df with
    | nil => rfl
    | cons r rs ih =>
      simp only [List.map_cons, List.cons.injEq] at ih ⊢
      exact ⟨rfl, ih⟩
  · simp [replace_wrong_shows]

/-- Membership in `insertDescByVotes`. -/
theorem mem_insertDescByVotes (p x : Int × Int) :
    ∀ l, x ∈ insertDescByVotes p l ↔ x = p ∨ x ∈ l := by
  intro l
  induction l with
  | nil => simp [insertDescByVotes]
  | cons q l ih =>
    by_cases h : q.2 ≤ p.2
    · simp [insertDescByVotes, h]
    · simp only [insertDescByVotes, if_neg h, List.mem_cons, ih]
      tauto

/-- Inserting preserves the descending-by-votes ordering. -/
theorem pairwise_insertDescByVotes (p : Int × Int) :
    ∀ l, List.Pairwise (fun a b : Int × Int => b.2 ≤ a.2) l →
      List.Pairwise (fun a b : Int × Int => b.2 ≤ a.2) (insertDescByVotes p l) := by
  intro l
  induction l with
  | nil => intro _; simp [insertDescByVotes]
  | cons q l ih =>
    intro hp
    rcases List.pairwise_cons.mp hp with ⟨hq, hl⟩
    by_cases h : q.2 ≤ p.2
    · rw [show insertDescByVotes p (q :: l) = p :: q :: l from by
        simp [insertDescByVotes, h]]
      refine List.pairwise_cons.mpr ⟨?_, hp⟩
      intro x hx
      rcases List.mem_cons.mp hx with rfl | hx
      · exact h
      · exact le_trans (hq x hx) h
    · rw [show insertDescByVotes p (q :: l) = q :: insertDescByVotes p l from by
        simp [insertDescByVotes, h]]
      refine List.pairwise_cons.mpr ⟨?_, ih hl⟩
      intro x hx
      rcases (mem_insertDescByVotes p x l).mp hx with rfl | hx
      · exact le_of_not_le h
      · exact hq x hx

/-- The descending insertion sort is sorted descending by votes. -/
theorem pairwise_sortDescByVotes :
    ∀ l, List.Pairwise (fun a b : Int × Int => b.2 ≤ a.2) (sortDescByVotes l) := by
  intro l
  induction l with
  | nil => simp [sortDescByVotes]
  | cons p l ih =>
    simp only [sortDescByVotes]
    exact pairwise_insertDescByVotes p _ ih

/-- Sorting does not change the set of pairs. -/
theorem mem_sortDescByVotes (x : Int × Int) :
    ∀ l, x ∈ sortDescByVotes l ↔ x ∈ l := by
  intro l
  induction l with
  | nil => simp [sortDescByVotes]
  | cons p l ih =>
    simp only [sortDescByVotes, mem_insertDescByVotes, ih, List.mem_cons]

/-- C7: the aggregator's output is sorted descending by average votes,
and every reported pair carries the rounded mean of the vote counts of
its score bucket. -/
theorem results_sorted_desc :
    ∀ df : List Record,
      List.Pairwise (fun a b : Int × Int => b.2 ≤ a.2) (results df)
      ∧ ∀ p : Int × Int, p ∈ results df →
          p.2 = roundHalfEvenDiv (sumVotes (groupRows df p.1))
                  (numVotes (groupRows df p.1)) := by
  intro df
  refine ⟨pairwise_sortDescByVotes _, ?_⟩
  intro p hp
  unfold results at hp
  have hp2 := (mem_sortDescByVotes p _).mp hp
  unfold avg_votes_by_score at hp2
  rcases List.mem_map.mp hp2 with ⟨s, hs, heq⟩
  cases heq
  rfl

/-- Witness for C7 at a concrete analysis table: the reported pair
(9, 126667) carries exactly the rounded mean of its bucket's votes. -/
theorem results_sorted_desc_witness :
    ((9, 126667) : Int × Int).2
      = roundHalfEvenDiv
          (sumVotes (groupRows
            (analysis_df (roundScores (golden_age_shows (clean tableC1))))
            ((9, 126667) : Int × Int).1))
          (numVotes (groupRows
            (analysis_df (roundScores (golden_age_shows (clean tableC1))))
            ((9, 126667) : Int × Int).1)) :=
  (results_sorted_desc
    (analysis_df (roundScores (golden_age_shows (clean tableC1))))).2
    (9, 126667) (by decide)

/-- Membership in `insertAsc`. -/
theorem mem_insertAsc (a x : Int) :
    ∀ l, x ∈ insertAsc a l ↔ x = a ∨ x ∈ l := by
  intro l
  induction l with
  | nil => simp [insertAsc]
  | cons b l ih =>
    by_cases h : a ≤ b
    · simp [insertAsc, h]
    · simp only [insertAsc, if_neg h, List.mem_cons, ih]
      tauto

/-- Sorting the group keys does not change their set. -/
theorem mem_sortAsc (x : Int) : ∀ l, x ∈ sortAsc l ↔ x ∈ l := by
  intro l
  induction l with
  | nil => simp [sortAsc]
  | cons a l ih =>
    simp only [sortAsc, mem_insertAsc, ih, List.mem_cons]

/-- A score is a group key exactly when some row carries it. -/
theorem mem_scoreKeys (df : List Record) (s : Int) :
    s ∈ scoreKeys df ↔ ∃ r ∈ df, r.imdb_score = some s := by
  unfold scoreKeys
  rw [mem_sortAsc, List.mem_dedup, List.mem_filterMap]

/-- A score has an averaged-report entry exactly when it is a group key. -/
theorem exists_avg_pair (df : List Record) (s : Int) :
    (∃ v, (s, v) ∈ avg_votes_by_score df) ↔ s ∈ scoreKeys df := by
  unfold avg_votes_by_score
  constructor
  · rintro ⟨v, hv⟩
    rcases List.mem_map.mp hv with ⟨t, ht, heq⟩
    rcases Prod.mk.injEq .. ▸ heq with ⟨rfl, -⟩
    exact ht
  · intro hs
    exact ⟨avgVotes (groupRows df s), List.mem_map.mpr ⟨s, hs, rfl⟩⟩

/-- A score has a distinct-title-count entry exactly when it is a group
key. -/
theorem exists_count_pair (df : List Record) (s : Int) :
    (∃ n, (s, n) ∈ score_counts df) ↔ s ∈ scoreKeys df := by
  unfold score_counts
  constructor
  · rintro ⟨n, hn⟩
    rcases List.mem_map.mp hn with ⟨t, ht, heq⟩
    rcases Prod.mk.injEq .. ▸ heq with ⟨rfl, -⟩
    exact ht
  · intro hs
    exact ⟨_, List.mem_map.mpr ⟨s, hs, rfl⟩⟩

/-- The group keys of the range-restricted table are the group keys of
the full table that lie in the hard-coded range 4..9. -/
theorem mem_scoreKeys_analysis (df : List Record) (s : Int) :
    s ∈ scoreKeys (analysis_df df) ↔ s ∈ scoreKeys df ∧ 4 ≤ s ∧ s ≤ 9 := by
  rw [mem_scoreKeys, mem_scoreKeys]
  unfold analysis_df
  constructor
  · rintro ⟨r, hr, hscore⟩
    obtain ⟨hrdf, hcond⟩ := List.mem_filter.mp hr
    rw [hscore] at hcond
    simp only [Bool.and_eq_true, decide_eq_true_eq] at hcond
    exact ⟨⟨r, hrdf, hscore⟩, hcond⟩
  · rintro ⟨⟨r, hr, hscore⟩, h4, h9⟩
    refine ⟨r, List.mem_filter.mpr ⟨hr, ?_⟩, hscore⟩
    rw [hscore]
    simp [h4, h9]

/-- C3 (amended): a rating bucket appears in the final averaged report
exactly when it appears in the raw per-bucket distinct-title listing and
its rounded rating lies in the hard-coded range 4..9 — exclusion is
decided by this fixed range, not computed from the per-bucket
distinct-title counts, so an under-threshold bucket inside the range is
not excluded while any bucket outside it is. -/
theorem analysis_exclusion_by_fixed_range :
    ∀ (df : List Record) (s : Int),
      (∃ v, (s, v) ∈ avg_votes_by_score (analysis_df df))
        ↔ (∃ n, (s, n) ∈ score_counts df) ∧ 4 ≤ s ∧ s ≤ 9 := by
  intro df s
  rw [exists_avg_pair, exists_count_pair, mem_scoreKeys_analysis]
